import Mathlib

/-!
Verification of the annotated molecular dataset core of the
papyrus-scaffold-visualizer repository.  The definitions below are a
shallow embedding of `data/dataset.py` (class `DataSetTSV`) and of
`scaffviz/data/papyrus/papyrus_filter.py`.  Tables are column-oriented
with an explicit row count (the pandas index length); cell values are
either raw strings, parsed molecules (modelled by the string they were
parsed from), or integers (the numeric values pandas infers on read).
-/

/-- Cell values appearing in a data frame. -/
inductive Val where
  | str (s : String)
  | mol (m : String)
  | int (n : Int)
deriving DecidableEq

deriving instance DecidableEq for Except

/-- Python exceptions raised by the store. -/
inductive DSError where
  | noneTable
  | missingColumn (name : String)
  | shapeMismatch
  | typeErr
  | annFailure (msg : String)
deriving DecidableEq

/-- `chPre p s` is true when the char list `p` is an initial segment of
`s`; models Python `str.startswith`. -/
def chPre : List Char → List Char → Bool
  | [], _ => true
  | _ :: _, [] => false
  | a :: as, b :: bs => (a == b) && chPre as bs

/-- Models Python `str.startswith`. -/
def hasPre (p s : String) : Bool := chPre p.data s.data

/-- A pandas data frame: the index length plus the named columns, in
column order. -/
structure Table where
  nrows : Nat
  cols : List (String × List Val)
deriving DecidableEq

/-- Column lookup by name (first match, as pandas does). -/
def lookupCol : List (String × List Val) → String → Option (List Val)
  | [], _ => none
  | c :: cs, n => if c.1 = n then some c.2 else lookupCol cs n

def Table.getCol? (t : Table) (n : String) : Option (List Val) :=
  lookupCol t.cols n

def Table.hasCol (t : Table) (n : String) : Bool :=
  (t.getCol? n).isSome

def Table.colNames (t : Table) : List String :=
  t.cols.map Prod.fst

/-- Column assignment `df[n] = vs`: overwrite in place when the column
exists, otherwise append it at the end. -/
def setCols : List (String × List Val) → String → List Val → List (String × List Val)
  | [], n, vs => [(n, vs)]
  | c :: cs, n, vs => if c.1 = n then (n, vs) :: cs else c :: setCols cs n vs

def Table.setCol (t : Table) (n : String) (vs : List Val) : Table :=
  ⟨t.nrows, setCols t.cols n vs⟩

def removeCols : List (String × List Val) → String → List (String × List Val)
  | [], _ => []
  | c :: cs, n => if c.1 = n then removeCols cs n else c :: removeCols cs n

/-- `df.drop(n, axis=1)`: `KeyError` (here `none`) when the column is
absent; dropping a column never touches the index. -/
def Table.dropCol? (t : Table) (n : String) : Option Table :=
  if t.hasCol n then some ⟨t.nrows, removeCols t.cols n⟩ else none

/-- Projection `df[list_of_names]`. -/
def selectCols (t : Table) : List String → List (String × List Val)
  | [] => []
  | n :: ns =>
    match t.getCol? n with
    | some vs => (n, vs) :: selectCols t ns
    | none => selectCols t ns

def Table.select (t : Table) (ns : List String) : Table :=
  ⟨t.nrows, selectCols t ns⟩

/-- Decimal digit of a character, if any. -/
def charDigit? (c : Char) : Option Nat :=
  if '0' ≤ c ∧ c ≤ '9' then some (c.toNat - 48) else none

def digitsValAux : Option Nat → List Char → Option Nat
  | acc, [] => acc
  | acc, c :: cs =>
    match acc, charDigit? c with
    | some a, some d => digitsValAux (some (a * 10 + d)) cs
    | _, _ => none

def digitsVal (cs : List Char) : Option Nat :=
  match cs with
  | [] => none
  | _ => digitsValAux (some 0) cs

/-- The numeric inference pandas performs when reading a cell back from
text: an optional sign followed by decimal digits parses as an integer. -/
def parseIntStr (s : String) : Option Int :=
  match s.data with
  | '-' :: rest => (digitsVal rest).map (fun n => -(n : Int))
  | cs => (digitsVal cs).map (fun n => (n : Int))

def natDigsAux : Nat → Nat → List Char
  | _, 0 => []
  | 0, _ + 1 => []
  | fuel + 1, m + 1 =>
    natDigsAux fuel ((m + 1) / 10) ++ [Char.ofNat (48 + (m + 1) % 10)]

def natToStr (n : Nat) : String :=
  if n = 0 then "0" else ⟨natDigsAux n n⟩

def intToStr (i : Int) : String :=
  if i < 0 then "-" ++ natToStr i.natAbs else natToStr i.natAbs

/-- What `to_csv` prints for an RDKit molecule object: an opaque repr
carrying no molecular content (the address differs run to run, so the
serialisation of a molecule cell is a constant marker here). -/
def molReprStr : String := "<rdkit.Chem.rdchem.Mol object>"

/-- One cell as written by `to_csv`. -/
def serializeCell : Val → String
  | .str s => s
  | .int n => intToStr n
  | .mol _ => molReprStr

/-- One cell as read back by `read_csv`. -/
def parseCell (s : String) : Val :=
  match parseIntStr s with
  | some n => .int n
  | none => .str s

/-- Write-then-read of a single cell. -/
def roundCell (v : Val) : Val := parseCell (serializeCell v)

/-- The text content of a tab-separated backing file. -/
structure FileContent where
  nrows : Nat
  cols : List (String × List String)
deriving DecidableEq

/-- The file system: a map from paths to file contents. -/
abbrev FS := List (String × FileContent)

def fsGet? : FS → String → Option FileContent
  | [], _ => none
  | e :: es, p => if e.1 = p then some e.2 else fsGet? es p

def fsWrite : FS → String → FileContent → FS
  | [], p, c => [(p, c)]
  | e :: es, p, c => if e.1 = p then (p, c) :: es else e :: fsWrite es p c

/-- `df.to_csv(path, sep='\t', index=False, header=True)`. -/
def writeTable (t : Table) : FileContent :=
  ⟨t.nrows, t.cols.map (fun c => (c.1, c.2.map serializeCell))⟩

/-- `pd.read_csv(path, sep='\t')`. -/
def readFile (f : FileContent) : Table :=
  ⟨f.nrows, f.cols.map (fun c => (c.1, c.2.map parseCell))⟩

/-- `Chem.MolFromSmiles` applied to one cell: a string parses to a
molecule (an unparsable string gives None, still a cell value); any
non-string argument raises `TypeError` (here `none`). -/
def cellToMol : Val → Option Val
  | .str s => some (.mol s)
  | _ => none

def mapO (f : Val → Option Val) : List Val → Option (List Val)
  | [] => some []
  | v :: vs =>
    match f v with
    | none => none
    | some w =>
      match mapO f vs with
      | none => none
      | some ws => some (w :: ws)

/-- `PandasTools.AddMoleculeColumnToFrame(frame, smilesCol, molCol)`:
`frame[molCol] = frame[smilesCol].map(Chem.MolFromSmiles)`.  Called on
`None` it raises (`NoneType` is not subscriptable). -/
def AddMoleculeColumnToFrame (frame : Option Table) (smilesCol molCol : String) :
    Except DSError Table :=
  match frame with
  | none => .error .noneTable
  | some t =>
    match t.getCol? smilesCol with
    | none => .error (.missingColumn smilesCol)
    | some vs =>
      match mapO cellToMol vs with
      | none => .error .typeErr
      | some mols => .ok (t.setCol molCol mols)

/-- The file-backed dataset store `DataSetTSV`. -/
structure DataSetTSV where
  smilesCol : String
  molCol : String
  path : String
  data : Table
deriving DecidableEq

/-- `DataSetTSV.__init__(path, mol_col)`: read the file when it exists,
else keep `None`; then unconditionally add the parsed-molecule column. -/
def DataSetTSV.init (fs : FS) (path mol_col : String) : Except DSError DataSetTSV :=
  match AddMoleculeColumnToFrame ((fsGet? fs path).map readFile) mol_col "RDMol" with
  | .error e => .error e
  | .ok t => .ok ⟨mol_col, "RDMol", path, t⟩

/-- `DataSetTSV.save(path)`: `to_csv(path if path else self.path, ...)`.
Python truthiness: both `None` and the empty string fall back to the
configured backing path. -/
def DataSetTSV.save (ds : DataSetTSV) (fs : FS) (path : Option String) : FS :=
  fsWrite fs
    (match path with
      | none => ds.path
      | some p => if p = "" then ds.path else p)
    (writeTable ds.data)

/-- `getScaffoldNames`: column names starting with `Scaffold_`. -/
def DataSetTSV.getScaffoldNames (ds : DataSetTSV) : List String :=
  ds.data.colNames.filter (fun c => hasPre "Scaffold_" c)

/-- `getScaffolds(includeMols)`: both branches of the source project onto
the columns whose name starts with `Scaffold_`. -/
def DataSetTSV.getScaffolds (ds : DataSetTSV) (includeMols : Bool) : Table :=
  if includeMols then
    ds.data.select (ds.data.colNames.filter (fun c => hasPre "Scaffold_" c))
  else
    ds.data.select ds.getScaffoldNames

/-- An annotation function: its string name and its per-molecule
callable, which may raise. -/
structure AnnFn where
  name : String
  fn : Val → Except String Val

/-- Row-wise `df.apply`: stops at the first raising row; the column is
only produced when every row succeeds. -/
def mapE (f : Val → Except String Val) : List Val → Except String (List Val)
  | [] => .ok []
  | v :: vs =>
    match f v with
    | .error e => .error e
    | .ok w =>
      match mapE f vs with
      | .error e => .error e
      | .ok ws => .ok (w :: ws)

def isOkE (r : Except String (List Val)) : Bool :=
  match r with
  | .ok _ => true
  | .error _ => false

/-- One addScaffolds iteration succeeds for a function: its row-wise
application succeeds and the resulting scaffold strings all parse. -/
def scafOkE (mols : List Val) (s : AnnFn) : Bool :=
  match mapE s.fn mols with
  | .error _ => false
  | .ok col => (mapO cellToMol col).isSome

/-- `addDescriptors`: per function, compute the column over the parsed
molecules, assign it, and save; an uncaught exception ends the loop with
the state mutated and persisted so far. -/
def addDescLoop (ds : DataSetTSV) (fs : FS) : List AnnFn → DataSetTSV × FS × Option DSError
  | [] => (ds, fs, none)
  | d :: rest =>
    match ds.data.getCol? ds.molCol with
    | none => (ds, fs, some (.missingColumn ds.molCol))
    | some mols =>
      match mapE d.fn mols with
      | .error e => (ds, fs, some (.annFailure e))
      | .ok col =>
        let ds1 : DataSetTSV := { ds with data := ds.data.setCol ("Descriptor_" ++ d.name) col }
        addDescLoop ds1 (ds1.save fs none) rest

def DataSetTSV.addDescriptors (ds : DataSetTSV) (fs : FS) (fns : List AnnFn) :
    DataSetTSV × FS × Option DSError :=
  addDescLoop ds fs fns

/-- `addScaffolds`: per function, compute the scaffold string column,
assign it, derive its parsed-molecule counterpart, then save. -/
def addScafLoop (ds : DataSetTSV) (fs : FS) : List AnnFn → DataSetTSV × FS × Option DSError
  | [] => (ds, fs, none)
  | s :: rest =>
    match ds.data.getCol? ds.molCol with
    | none => (ds, fs, some (.missingColumn ds.molCol))
    | some mols =>
      match mapE s.fn mols with
      | .error e => (ds, fs, some (.annFailure e))
      | .ok col =>
        let ds1 : DataSetTSV := { ds with data := ds.data.setCol ("Scaffold_" ++ s.name) col }
        match AddMoleculeColumnToFrame (some ds1.data) ("Scaffold_" ++ s.name)
            ("Scaffold_" ++ s.name ++ "_" ++ ds.molCol) with
        | .error e => (ds1, fs, some e)
        | .ok t =>
          let ds2 : DataSetTSV := { ds1 with data := t }
          addScafLoop ds2 (ds2.save fs none) rest

def DataSetTSV.addScaffolds (ds : DataSetTSV) (fs : FS) (fns : List AnnFn) :
    DataSetTSV × FS × Option DSError :=
  addScafLoop ds fs fns

/-- `addData(name, data)`: column assignment, then save; pandas raises
when the value list length differs from the index length. -/
def DataSetTSV.addData (ds : DataSetTSV) (fs : FS) (name : String) (vals : List Val) :
    DataSetTSV × FS × Option DSError :=
  if vals.length = ds.data.nrows then
    let ds1 : DataSetTSV := { ds with data := ds.data.setCol name vals }
    (ds1, ds1.save fs none, none)
  else (ds, fs, some .shapeMismatch)

/-- `removeData(name)`: `drop` then save; `KeyError` when absent, raised
before any mutation or write. -/
def DataSetTSV.removeData (ds : DataSetTSV) (fs : FS) (name : String) :
    DataSetTSV × FS × Option DSError :=
  match ds.data.dropCol? name with
  | none => (ds, fs, some (.missingColumn name))
  | some t =>
    let ds1 : DataSetTSV := { ds with data := t }
    (ds1, ds1.save fs none, none)

/-- Occurrence count of a value in a column (`pd.value_counts`). -/
def countV : List Val → Val → Nat
  | [], _ => 0
  | w :: ws, v => (if w = v then 1 else 0) + countV ws v

/-- One grouping column: `np.where(col.isin(rare), 'Other', col)` where
rare values are those whose count is strictly below the threshold. -/
def groupCol (vals : List Val) (m : Nat) : List Val :=
  vals.map (fun v => if countV vals v < m then Val.str "Other" else v)

/-- The `for scaffold in scaffolds.columns` loop of
`createScaffoldGroups`. -/
def addGroups (m : Nat) : Table → List String → Table
  | t, [] => t
  | t, c :: rest =>
    match t.getCol? c with
    | some vals => addGroups m (t.setCol ("ScaffoldGroup_" ++ c) (groupCol vals m)) rest
    | none => addGroups m t rest

/-- `createScaffoldGroups(mols_per_group)`: one grouping column per
column of `getScaffolds(includeMols=False)`, then a single save. -/
def DataSetTSV.createScaffoldGroups (ds : DataSetTSV) (fs : FS) (m : Nat) :
    DataSetTSV × FS :=
  let ds1 : DataSetTSV := { ds with data := addGroups m ds.data (ds.getScaffolds false).colNames }
  (ds1, ds1.save fs none)

/-- One mutating call on the store. -/
inductive Op where
  | addDescs (fns : List AnnFn)
  | addScafs (fns : List AnnFn)
  | addCol (name : String) (vals : List Val)
  | removeCol (name : String)
  | scafGroups (m : Nat)

def applyOp (ds : DataSetTSV) (fs : FS) : Op → DataSetTSV × FS
  | .addDescs fns => ((ds.addDescriptors fs fns).1, (ds.addDescriptors fs fns).2.1)
  | .addScafs fns => ((ds.addScaffolds fs fns).1, (ds.addScaffolds fs fns).2.1)
  | .addCol n vs => ((ds.addData fs n vs).1, (ds.addData fs n vs).2.1)
  | .removeCol n => ((ds.removeData fs n).1, (ds.removeData fs n).2.1)
  | .scafGroups m => ds.createScaffoldGroups fs m

def runOps (ds : DataSetTSV) (fs : FS) : List Op → DataSetTSV × FS
  | [] => (ds, fs)
  | op :: rest => runOps (applyOp ds fs op).1 (applyOp ds fs op).2 rest

/-- Flags marking the first occurrence of each key
(`drop_duplicates(subset=['InChIKey'])`). -/
def dedupKeep (seen : List Val) : List Val → List Bool
  | [] => []
  | k :: ks => (!(seen.contains k)) :: dedupKeep (k :: seen) ks

def maskCol : List Bool → List Val → List Val
  | b :: bs, v :: vs => if b then v :: maskCol bs vs else maskCol bs vs
  | _, _ => []

def countTrue : List Bool → Nat
  | [] => 0
  | b :: bs => (if b then 1 else 0) + countTrue bs

def dropDupRows (t : Table) (ks : List Val) : Table :=
  let flags := dedupKeep [] ks
  ⟨countTrue flags, t.cols.map (fun c => (c.1, maskCol flags c.2))⟩

/-- The output path `os.path.join(outdir, prefix + ".tsv")` with the
default `'_'.join(acc_key) + '_' + quality` applied when the given
prefix is `None` or empty (Python truthiness). -/
def papyrusOutfile (acc_key : List String) (quality outdir : String)
    (pfx : Option String) : String :=
  let p :=
    match pfx with
    | some s => if s = "" then String.intercalate "_" acc_key ++ "_" ++ quality else s
    | none => String.intercalate "_" acc_key ++ "_" ++ quality
  outdir ++ "/" ++ p ++ ".tsv"

/-- `papyrus_filter`.  The chunked read-and-filter pipeline
(`read_papyrus`, `keep_quality`, `keep_accession`, `consume_chunks`) is
third-party code outside this repository; its combined result enters as
the opaque parameter `pipelineResult`.  The reuse branch, the InChIKey
deduplication and the final write are modelled from the source. -/
def papyrus_filter (acc_key : List String) (quality outdir : String)
    (pfx : Option String) (drop_dup use_existing : Bool)
    (pipelineResult : Table) (fs : FS) :
    Except DSError ((Table × String) × FS) :=
  let outfile := papyrusOutfile acc_key quality outdir pfx
  match use_existing, fsGet? fs outfile with
  | true, some content => .ok ((readFile content, outfile), fs)
  | _, _ =>
    if drop_dup then
      match pipelineResult.getCol? "InChIKey" with
      | none => .error (.missingColumn "InChIKey")
      | some ks =>
        let fd := dropDupRows pipelineResult ks
        .ok ((fd, outfile), fsWrite fs outfile (writeTable fd))
    else
      .ok ((pipelineResult, outfile), fsWrite fs outfile (writeTable pipelineResult))

/-- A store holding one scaffold column and its parsed-molecule
counterpart. -/
def scafStore : DataSetTSV :=
  ⟨"SMILES", "RDMol", "data.tsv",
   ⟨2, [("SMILES", [.str "CC", .str "CO"]), ("RDMol", [.mol "CC", .mol "CO"]),
        ("Scaffold_S", [.str "C", .str "C"]), ("Scaffold_S_RDMol", [.mol "C", .mol "C"])]⟩⟩

/-- A store whose scaffold column holds the values A,A,A,B,B,C. -/
def groupStore : DataSetTSV :=
  ⟨"SMILES", "RDMol", "g.tsv",
   ⟨6, [("SMILES", [.str "Ca", .str "Cb", .str "Cc", .str "Cd", .str "Ce", .str "Cf"]),
        ("RDMol", [.mol "Ca", .mol "Cb", .mol "Cc", .mol "Cd", .mol "Ce", .mol "Cf"]),
        ("Scaffold_X", [.str "A", .str "A", .str "A", .str "B", .str "B", .str "C"])]⟩⟩

/-- A store with one molecule and one descriptor column. -/
def rtStore : DataSetTSV :=
  ⟨"SMILES", "RDMol", "rt.tsv",
   ⟨1, [("SMILES", [.str "CC"]), ("RDMol", [.mol "CC"]), ("Descriptor_MW", [.int 100])]⟩⟩

/-- A minimal store used for the save-path statements. -/
def c10Store : DataSetTSV :=
  ⟨"SMILES", "RDMol", "a.tsv", ⟨1, [("SMILES", [.str "CC"]), ("RDMol", [.mol "CC"])]⟩⟩

/-- A descriptor function that always succeeds. -/
def mwFn : AnnFn := ⟨"MW", fun _ => .ok (.int 100)⟩

/-- A descriptor function that always raises. -/
def badFn : AnnFn := ⟨"BAD", fun _ => .error "boom"⟩

/-- A scaffold function that always succeeds. -/
def scFn : AnnFn := ⟨"SC", fun _ => .ok (.str "C")⟩

/-! ## Basic lemmas about the embedding -/

theorem strDataAppend (a b : String) : (a ++ b).data = a.data ++ b.data := by
  cases a
  cases b
  rfl

theorem strAppendCancel (p a b : String) (h : p ++ a = p ++ b) : a = b := by
  have hd := congrArg String.data h
  rw [strDataAppend, strDataAppend] at hd
  have hdd : a.data = b.data := List.append_cancel_left hd
  cases a with
  | mk da =>
  cases b with
  | mk db =>
  have hdb : da = db := hdd
  rw [hdb]

theorem groupNameNotScaf {c : String} (hc : hasPre "Scaffold_" c = true) (x : String) :
    ("ScaffoldGroup_" ++ x) ≠ c := by
  intro h
  rw [← h] at hc
  have hf : hasPre "Scaffold_" ("ScaffoldGroup_" ++ x) = false := by
    unfold hasPre
    rw [strDataAppend]
    rfl
  rw [hf] at hc
  exact Bool.noConfusion hc

theorem descNeRDMol (s : String) : ("Descriptor_" ++ s) ≠ "RDMol" := by
  intro h
  have hd := congrArg String.data h
  rw [strDataAppend] at hd
  have hl := congrArg List.length hd
  rw [List.length_append] at hl
  have h1 : ("Descriptor_".data).length = 11 := rfl
  have h2 : ("RDMol".data).length = 5 := rfl
  rw [h1, h2] at hl
  omega

theorem fsGet_fsWrite_self (fs : FS) (p : String) (c : FileContent) :
    fsGet? (fsWrite fs p c) p = some c := by
  induction fs with
  | nil => simp [fsWrite, fsGet?]
  | cons e es ih =>
    by_cases h : e.1 = p
    · simp [fsWrite, h, fsGet?]
    · simp [fsWrite, h, fsGet?, ih]

theorem fsGet_fsWrite_other (fs : FS) (p q : String) (c : FileContent) (h : q ≠ p) :
    fsGet? (fsWrite fs p c) q = fsGet? fs q := by
  induction fs with
  | nil => simp [fsWrite, fsGet?, Ne.symm h]
  | cons e es ih =>
    by_cases he : e.1 = p
    · simp [fsWrite, he, fsGet?, Ne.symm h]
    · simp only [fsWrite, if_neg he, fsGet?]
      by_cases heq : e.1 = q
      · simp [heq]
      · simp [heq, ih]

theorem lookupCol_isSome_iff (cs : List (String × List Val)) (n : String) :
    (lookupCol cs n).isSome = true ↔ n ∈ cs.map Prod.fst := by
  induction cs with
  | nil => simp [lookupCol]
  | cons c cs ih =>
    by_cases h : c.1 = n
    · simp [lookupCol, h]
    · simp [lookupCol, h, ih, Ne.symm h]

theorem lookup_mem {cs : List (String × List Val)} {n : String} {vs : List Val}
    (h : lookupCol cs n = some vs) : (n, vs) ∈ cs := by
  induction cs with
  | nil => exact Option.noConfusion h
  | cons c cs ih =>
    obtain ⟨c1, c2⟩ := c
    by_cases hc : c1 = n
    · simp only [lookupCol] at h
      rw [if_pos hc] at h
      have hv : c2 = vs := Option.some.inj h
      subst hc
      subst hv
      exact List.mem_cons_self _ _
    · simp only [lookupCol] at h
      rw [if_neg hc] at h
      exact List.mem_cons_of_mem _ (ih h)

theorem lookup_setCols (cs : List (String × List Val)) (n : String) (vs : List Val)
    (m : String) :
    lookupCol (setCols cs n vs) m = if m = n then some vs else lookupCol cs m := by
  induction cs with
  | nil =>
    by_cases h : m = n
    · simp [setCols, lookupCol, h]
    · simp [setCols, lookupCol, h, Ne.symm h]
  | cons c cs ih =>
    by_cases hc : c.1 = n
    · by_cases hm : m = n
      · simp [setCols, hc, lookupCol, hm]
      · have hnm : ¬ n = m := fun hh => hm hh.symm
        have hcm : ¬ c.1 = m := fun hh => hm ((hc.symm.trans hh).symm)
        simp [setCols, hc, lookupCol, hm, hnm, hcm]
    · by_cases hcm : c.1 = m
      · have hmn : ¬ m = n := fun hh => hc (hcm.trans hh)
        simp [setCols, hc, lookupCol, hcm, hmn]
      · simp [setCols, hc, lookupCol, hcm, ih]

theorem lookup_mapVals (g : List Val → List Val) (cs : List (String × List Val))
    (n : String) :
    lookupCol (cs.map (fun c => (c.1, g c.2))) n = (lookupCol cs n).map g := by
  induction cs with
  | nil => simp [lookupCol]
  | cons c cs ih =>
    by_cases h : c.1 = n
    · simp [lookupCol, h]
    · simp [lookupCol, h, ih]

theorem mapSelf {α : Type} (f : α → α) :
    ∀ (l : List α), (∀ x ∈ l, f x = x) → l.map f = l := by
  intro l
  induction l with
  | nil => intro _; rfl
  | cons a l ih =>
    intro h
    have ha : f a = a := h a (by simp)
    have hl : l.map f = l := ih (fun x hx => h x (by simp [hx]))
    simp [ha, hl]

theorem mem_select_names (t : Table) (c : String) (hc : t.hasCol c = true) :
    ∀ (ns : List String), c ∈ ns → c ∈ (t.select ns).colNames := by
  intro ns
  induction ns with
  | nil => intro h; exact absurd h (List.not_mem_nil c)
  | cons n ns ih =>
    intro hmem
    rcases List.mem_cons.mp hmem with h | h
    · subst h
      unfold Table.hasCol at hc
      cases hcol : t.getCol? c with
      | none => rw [hcol] at hc; exact Bool.noConfusion hc
      | some vs => simp [Table.select, selectCols, hcol, Table.colNames]
    · have hthis := ih h
      cases hcol : t.getCol? n with
      | none =>
        show c ∈ (⟨t.nrows, selectCols t (n :: ns)⟩ : Table).colNames
        simp only [selectCols, hcol]
        exact hthis
      | some vs =>
        show c ∈ (⟨t.nrows, selectCols t (n :: ns)⟩ : Table).colNames
        simp only [selectCols, hcol, Table.colNames, List.map_cons]
        exact List.mem_cons_of_mem _ hthis

/-! ## Lemmas about the scaffold grouping loop -/

theorem getCol_setCol (t : Table) (n : String) (vs : List Val) (m : String) :
    (t.setCol n vs).getCol? m = if m = n then some vs else t.getCol? m :=
  lookup_setCols t.cols n vs m

theorem addGroups_preserve (m : Nat) (L : List String) :
    ∀ (t : Table) (n : String), (∀ c ∈ L, n ≠ "ScaffoldGroup_" ++ c) →
      (addGroups m t L).getCol? n = t.getCol? n := by
  induction L with
  | nil => intro t n _; rfl
  | cons c rest ih =>
    intro t n hn
    cases hc : t.getCol? c with
    | none =>
      simp only [addGroups, hc]
      exact ih t n (fun x hx => hn x (List.mem_cons_of_mem _ hx))
    | some vals =>
      simp only [addGroups, hc]
      rw [ih _ n (fun x hx => hn x (List.mem_cons_of_mem _ hx))]
      rw [getCol_setCol]
      rw [if_neg (hn c (List.mem_cons_self _ _))]

theorem addGroups_sets (m : Nat) (L : List String) :
    ∀ (t : Table) (c : String) (vals : List Val), c ∈ L →
      hasPre "Scaffold_" c = true →
      t.getCol? c = some vals →
      (addGroups m t L).getCol? ("ScaffoldGroup_" ++ c) = some (groupCol vals m) := by
  induction L with
  | nil => intro t c vals hmem _ _; exact absurd hmem (List.not_mem_nil c)
  | cons c0 rest ih =>
    intro t c vals hmem hsc hcol
    by_cases hc : c0 = c
    · subst hc
      simp only [addGroups, hcol]
      by_cases hr : c0 ∈ rest
      · have hpres : (t.setCol ("ScaffoldGroup_" ++ c0) (groupCol vals m)).getCol? c0 = some vals := by
          rw [getCol_setCol, if_neg (fun hh => groupNameNotScaf hsc c0 hh.symm)]
          exact hcol
        exact ih _ c0 vals hr hsc hpres
      · have hside : ∀ x ∈ rest, ("ScaffoldGroup_" ++ c0) ≠ "ScaffoldGroup_" ++ x := by
          intro x hx hh
          have hcx : c0 = x := strAppendCancel _ _ _ hh
          exact hr (by rw [hcx]; exact hx)
        rw [addGroups_preserve m rest _ _ hside]
        rw [getCol_setCol, if_pos rfl]
    · have hmem0 : c ∈ rest := by
        rcases List.mem_cons.mp hmem with h | h
        · exact absurd h.symm hc
        · exact h
      cases hc0 : t.getCol? c0 with
      | none =>
        simp only [addGroups, hc0]
        exact ih t c vals hmem0 hsc hcol
      | some vals0 =>
        simp only [addGroups, hc0]
        have hpres : (t.setCol ("ScaffoldGroup_" ++ c0) (groupCol vals0 m)).getCol? c = some vals := by
          rw [getCol_setCol, if_neg (fun hh => groupNameNotScaf hsc c0 hh.symm)]
          exact hcol
        exact ih _ c vals hmem0 hsc hpres

theorem groupCol_spec (vals : List Val) (m : Nat) :
    groupCol vals m =
      vals.map (fun v => if m ≤ countV vals v then v else Val.str "Other") := by
  unfold groupCol
  congr 1
  funext v
  by_cases h : countV vals v < m
  · rw [if_pos h, if_neg (Nat.not_le.mpr h)]
  · rw [if_neg h, if_pos (Nat.le_of_not_lt h)]

/-! ## Claim theorems (first group) -/

/-- Claim C1: for every scaffold column and every minimum group size m,
createScaffoldGroups assigns each row the original scaffold value exactly
when its occurrence count in the column is at least m, and the sentinel
"Other" when the count is strictly below m; in particular column values
A,A,A,B,B,C give A,A,A,Other,Other,Other at m=3, A,A,A,B,B,Other at m=2,
and the original column at m=1. -/
theorem scaffoldGroupThreshold :
    (∀ (ds : DataSetTSV) (fs : FS) (m : Nat) (c : String) (vals : List Val),
      hasPre "Scaffold_" c = true →
      ds.data.getCol? c = some vals →
      ((ds.createScaffoldGroups fs m).1).data.getCol? ("ScaffoldGroup_" ++ c) =
        some (vals.map (fun v => if m ≤ countV vals v then v else Val.str "Other"))) ∧
    (groupStore.createScaffoldGroups [] 3).1.data.getCol? "ScaffoldGroup_Scaffold_X" =
      some [.str "A", .str "A", .str "A", .str "Other", .str "Other", .str "Other"] ∧
    (groupStore.createScaffoldGroups [] 2).1.data.getCol? "ScaffoldGroup_Scaffold_X" =
      some [.str "A", .str "A", .str "A", .str "B", .str "B", .str "Other"] ∧
    (groupStore.createScaffoldGroups [] 1).1.data.getCol? "ScaffoldGroup_Scaffold_X" =
      groupStore.data.getCol? "Scaffold_X" := by
  refine ⟨?_, by decide, by decide, by decide⟩
  intro ds fs m c vals hsc hcol
  have hname : c ∈ ds.data.colNames := by
    have : (lookupCol ds.data.cols c).isSome = true := by
      rw [show lookupCol ds.data.cols c = ds.data.getCol? c from rfl, hcol]
      rfl
    exact (lookupCol_isSome_iff ds.data.cols c).mp this
  have hfil : c ∈ ds.data.colNames.filter (fun n => hasPre "Scaffold_" n) :=
    List.mem_filter.mpr ⟨hname, hsc⟩
  have hhas : ds.data.hasCol c = true := by
    unfold Table.hasCol
    rw [hcol]
    rfl
  have hmem : c ∈ (ds.getScaffolds false).colNames :=
    mem_select_names ds.data c hhas _ hfil
  show (addGroups m ds.data (ds.getScaffolds false).colNames).getCol? ("ScaffoldGroup_" ++ c) = _
  rw [addGroups_sets m _ ds.data c vals hmem hsc hcol, groupCol_spec]

/-- Witness for scaffoldGroupThreshold: the general threshold statement
applied to the concrete A,A,A,B,B,C column at m = 5. -/
theorem scaffoldGroupThresholdApplied :
    (groupStore.createScaffoldGroups [] 5).1.data.getCol? ("ScaffoldGroup_" ++ "Scaffold_X") =
      some ([Val.str "A", .str "A", .str "A", .str "B", .str "B", .str "C"].map
        (fun v => if 5 ≤ countV [Val.str "A", .str "A", .str "A", .str "B", .str "B", .str "C"] v
          then v else Val.str "Other")) :=
  scaffoldGroupThreshold.1 groupStore [] 5 "Scaffold_X"
    [.str "A", .str "A", .str "A", .str "B", .str "B", .str "C"] (by decide) (by decide)

/-- Claim C2 (code bug): the source sets the table to None for a
nonexistent path and then unconditionally calls AddMoleculeColumnToFrame
on it, so constructing a store from a path that does not exist raises
instead of yielding an empty/absent table. -/
theorem initMissingPathRaises (fs : FS) (path mol_col : String)
    (h : fsGet? fs path = none) :
    DataSetTSV.init fs path mol_col = .error .noneTable := by
  simp [DataSetTSV.init, h, AddMoleculeColumnToFrame]

/-- Witness for initMissingPathRaises on the empty file system. -/
theorem initMissingPathRaisesApplied :
    DataSetTSV.init [] "new.tsv" "SMILES" = .error .noneTable :=
  initMissingPathRaises [] "new.tsv" "SMILES" rfl

/-- Claim C3 (code bug): the two branches of getScaffolds are identical,
so the includeMols flag never changes the result, and the flag-unset mode
still returns the parsed-molecule counterpart columns (their names also
start with the Scaffold_ prefix). -/
theorem getScaffoldsFlagDead :
    (∀ (ds : DataSetTSV) (b b' : Bool), ds.getScaffolds b = ds.getScaffolds b') ∧
    scafStore.getScaffolds false = scafStore.getScaffolds true ∧
    "Scaffold_S_RDMol" ∈ (scafStore.getScaffolds false).colNames := by
  refine ⟨?_, by decide, by decide⟩
  intro ds b b'
  cases b <;> cases b' <;> rfl

/-- Claim C6: removeData on a column name not in the table raises a
missing-column error and leaves both the in-memory table and the file
system exactly as they were. -/
theorem removeMissingColumnFails (ds : DataSetTSV) (fs : FS) (name : String)
    (h : ds.data.hasCol name = false) :
    ds.removeData fs name = (ds, fs, some (.missingColumn name)) := by
  simp [DataSetTSV.removeData, Table.dropCol?, h]

/-- Witness for removeMissingColumnFails at a concrete store. -/
theorem removeMissingColumnFailsApplied :
    rtStore.removeData [] "Nope" = (rtStore, [], some (.missingColumn "Nope")) :=
  removeMissingColumnFails rtStore [] "Nope" (by decide)

/-- Claim C8 (code bug): createScaffoldGroups iterates over every column
whose name starts with Scaffold_, which includes the parsed-molecule
counterpart columns, so a grouping column is also produced for
Scaffold_S_RDMol. -/
theorem groupColumnsAlsoForMolCounterparts :
    "ScaffoldGroup_Scaffold_S" ∈ (scafStore.createScaffoldGroups [] 2).1.data.colNames ∧
    "ScaffoldGroup_Scaffold_S_RDMol" ∈ (scafStore.createScaffoldGroups [] 2).1.data.colNames := by
  decide

/-- Claim C9: when reuse is requested and the target output file exists,
papyrus_filter returns the file contents read back together with the
path, for every possible pipeline result (nothing is recomputed) and
with the file system unchanged (nothing is rewritten). -/
theorem papyrusReusesExistingFile (acc_key : List String) (quality outdir : String)
    (pfx : Option String) (drop_dup : Bool) (pipelineResult : Table) (fs : FS)
    (content : FileContent)
    (h : fsGet? fs (papyrusOutfile acc_key quality outdir pfx) = some content) :
    papyrus_filter acc_key quality outdir pfx drop_dup true pipelineResult fs =
      .ok ((readFile content, papyrusOutfile acc_key quality outdir pfx), fs) := by
  simp [papyrus_filter, h]

/-- A concrete backing file used by the papyrus reuse witness. -/
def papyrusFC : FileContent := ⟨1, [("InChIKey", ["AAA"]), ("SMILES", ["CC"])]⟩

/-- Witness for papyrusReusesExistingFile at a concrete file system. -/
theorem papyrusReusesExistingFileApplied :
    papyrus_filter ["P1"] "high" "dir" none true true ⟨0, []⟩
        [(papyrusOutfile ["P1"] "high" "dir" none, papyrusFC)] =
      .ok ((readFile papyrusFC, papyrusOutfile ["P1"] "high" "dir" none),
        [(papyrusOutfile ["P1"] "high" "dir" none, papyrusFC)]) :=
  papyrusReusesExistingFile ["P1"] "high" "dir" none true ⟨0, []⟩ _ papyrusFC
    (by simp [fsGet?])

/-! ## Step equations for the annotation loops -/

theorem AMC_some_eq (t : Table) (a b : String) :
    AddMoleculeColumnToFrame (some t) a b =
      match t.getCol? a with
      | none => .error (.missingColumn a)
      | some vs =>
        match mapO cellToMol vs with
        | none => .error .typeErr
        | some mols => .ok (t.setCol b mols) := rfl

theorem AMC_missing_eq (t : Table) (a b : String) (hg : t.getCol? a = none) :
    AddMoleculeColumnToFrame (some t) a b = .error (.missingColumn a) := by
  simp [AddMoleculeColumnToFrame, hg]

theorem AMC_typeErr_eq (t : Table) (a b : String) (vs : List Val)
    (hg : t.getCol? a = some vs) (hm : mapO cellToMol vs = none) :
    AddMoleculeColumnToFrame (some t) a b = .error .typeErr := by
  simp [AddMoleculeColumnToFrame, hg, hm]

theorem AMC_ok_eq (t : Table) (a b : String) (vs mols : List Val)
    (hg : t.getCol? a = some vs) (hm : mapO cellToMol vs = some mols) :
    AddMoleculeColumnToFrame (some t) a b = .ok (t.setCol b mols) := by
  simp [AddMoleculeColumnToFrame, hg, hm]

theorem AMC_nrows {t t' : Table} {a b : String}
    (h : AddMoleculeColumnToFrame (some t) a b = .ok t') : t'.nrows = t.nrows := by
  cases hg : t.getCol? a with
  | none =>
    rw [AMC_missing_eq t a b hg] at h
    exact Except.noConfusion h
  | some vs =>
    cases hm : mapO cellToMol vs with
    | none =>
      rw [AMC_typeErr_eq t a b vs hg hm] at h
      exact Except.noConfusion h
    | some mols =>
      rw [AMC_ok_eq t a b vs mols hg hm] at h
      have ht : t.setCol b mols = t' := Except.ok.inj h
      rw [← ht]
      rfl

theorem addDescLoop_cons_none (ds : DataSetTSV) (fs : FS) (d : AnnFn) (rest : List AnnFn)
    (hg : ds.data.getCol? ds.molCol = none) :
    addDescLoop ds fs (d :: rest) = (ds, fs, some (.missingColumn ds.molCol)) := by
  simp [addDescLoop, hg]

theorem addDescLoop_cons_err (ds : DataSetTSV) (fs : FS) (d : AnnFn) (rest : List AnnFn)
    (mols : List Val) (e : String)
    (hg : ds.data.getCol? ds.molCol = some mols) (he : mapE d.fn mols = .error e) :
    addDescLoop ds fs (d :: rest) = (ds, fs, some (.annFailure e)) := by
  simp [addDescLoop, hg, he]

theorem addDescLoop_cons_ok (ds : DataSetTSV) (fs : FS) (d : AnnFn) (rest : List AnnFn)
    (mols col : List Val)
    (hg : ds.data.getCol? ds.molCol = some mols) (he : mapE d.fn mols = .ok col) :
    addDescLoop ds fs (d :: rest) =
      addDescLoop { ds with data := ds.data.setCol ("Descriptor_" ++ d.name) col }
        (DataSetTSV.save { ds with data := ds.data.setCol ("Descriptor_" ++ d.name) col } fs none)
        rest := by
  simp [addDescLoop, hg, he]

theorem addScafLoop_cons_none (ds : DataSetTSV) (fs : FS) (s : AnnFn) (rest : List AnnFn)
    (hg : ds.data.getCol? ds.molCol = none) :
    addScafLoop ds fs (s :: rest) = (ds, fs, some (.missingColumn ds.molCol)) := by
  simp [addScafLoop, hg]

theorem addScafLoop_cons_err (ds : DataSetTSV) (fs : FS) (s : AnnFn) (rest : List AnnFn)
    (mols : List Val) (e : String)
    (hg : ds.data.getCol? ds.molCol = some mols) (he : mapE s.fn mols = .error e) :
    addScafLoop ds fs (s :: rest) = (ds, fs, some (.annFailure e)) := by
  simp [addScafLoop, hg, he]

theorem addScafLoop_cons_amcErr (ds : DataSetTSV) (fs : FS) (s : AnnFn) (rest : List AnnFn)
    (mols col : List Val) (e : DSError)
    (hg : ds.data.getCol? ds.molCol = some mols) (he : mapE s.fn mols = .ok col)
    (ha : AddMoleculeColumnToFrame (some (ds.data.setCol ("Scaffold_" ++ s.name) col))
      ("Scaffold_" ++ s.name) ("Scaffold_" ++ s.name ++ "_" ++ ds.molCol) = .error e) :
    addScafLoop ds fs (s :: rest) =
      ({ ds with data := ds.data.setCol ("Scaffold_" ++ s.name) col }, fs, some e) := by
  simp [addScafLoop, hg, he, ha]

theorem addScafLoop_cons_ok (ds : DataSetTSV) (fs : FS) (s : AnnFn) (rest : List AnnFn)
    (mols col : List Val) (t : Table)
    (hg : ds.data.getCol? ds.molCol = some mols) (he : mapE s.fn mols = .ok col)
    (ha : AddMoleculeColumnToFrame (some (ds.data.setCol ("Scaffold_" ++ s.name) col))
      ("Scaffold_" ++ s.name) ("Scaffold_" ++ s.name ++ "_" ++ ds.molCol) = .ok t) :
    addScafLoop ds fs (s :: rest) =
      addScafLoop { ds with data := t }
        (DataSetTSV.save { ds with data := t } fs none) rest := by
  simp [addScafLoop, hg, he, ha]

/-! ## Row-count preservation -/

theorem addDescLoop_nrows (fns : List AnnFn) :
    ∀ (ds : DataSetTSV) (fs : FS), ((addDescLoop ds fs fns).1).data.nrows = ds.data.nrows := by
  induction fns with
  | nil => intro ds fs; rfl
  | cons d rest ih =>
    intro ds fs
    cases hg : ds.data.getCol? ds.molCol with
    | none => rw [addDescLoop_cons_none ds fs d rest hg]
    | some mols =>
      cases he : mapE d.fn mols with
      | error e => rw [addDescLoop_cons_err ds fs d rest mols e hg he]
      | ok col =>
        rw [addDescLoop_cons_ok ds fs d rest mols col hg he]
        exact (ih _ _).trans rfl

theorem addScafLoop_nrows (fns : List AnnFn) :
    ∀ (ds : DataSetTSV) (fs : FS), ((addScafLoop ds fs fns).1).data.nrows = ds.data.nrows := by
  induction fns with
  | nil => intro ds fs; rfl
  | cons s rest ih =>
    intro ds fs
    cases hg : ds.data.getCol? ds.molCol with
    | none => rw [addScafLoop_cons_none ds fs s rest hg]
    | some mols =>
      cases he : mapE s.fn mols with
      | error e => rw [addScafLoop_cons_err ds fs s rest mols e hg he]
      | ok col =>
        cases ha : AddMoleculeColumnToFrame
            (some (ds.data.setCol ("Scaffold_" ++ s.name) col)) ("Scaffold_" ++ s.name)
            ("Scaffold_" ++ s.name ++ "_" ++ ds.molCol) with
        | error e =>
          rw [addScafLoop_cons_amcErr ds fs s rest mols col e hg he ha]
          rfl
        | ok t =>
          rw [addScafLoop_cons_ok ds fs s rest mols col t hg he ha]
          have h2 : t.nrows = (ds.data.setCol ("Scaffold_" ++ s.name) col).nrows :=
            AMC_nrows ha
          exact (ih _ _).trans h2

theorem addGroups_nrows (m : Nat) (L : List String) :
    ∀ (t : Table), (addGroups m t L).nrows = t.nrows := by
  induction L with
  | nil => intro t; rfl
  | cons c rest ih =>
    intro t
    cases hc : t.getCol? c with
    | none => simp only [addGroups, hc]; exact ih t
    | some vals => simp only [addGroups, hc]; exact ih _

theorem dropCol_nrows {t t' : Table} {n : String} (h : t.dropCol? n = some t') :
    t'.nrows = t.nrows := by
  unfold Table.dropCol? at h
  by_cases hb : t.hasCol n
  · rw [if_pos hb] at h
    have := Option.some.inj h
    rw [← this]
  · rw [if_neg hb] at h
    exact Option.noConfusion h

theorem applyOp_nrows (ds : DataSetTSV) (fs : FS) (op : Op) :
    ((applyOp ds fs op).1).data.nrows = ds.data.nrows := by
  cases op with
  | addDescs fns => exact addDescLoop_nrows fns ds fs
  | addScafs fns => exact addScafLoop_nrows fns ds fs
  | addCol n vs =>
    simp only [applyOp, DataSetTSV.addData]
    by_cases h : vs.length = ds.data.nrows
    · simp only [if_pos h]; rfl
    · simp only [if_neg h]
  | removeCol n =>
    simp only [applyOp, DataSetTSV.removeData]
    cases h : ds.data.dropCol? n with
    | none => rfl
    | some t => exact dropCol_nrows h
  | scafGroups m => exact addGroups_nrows m _ ds.data

/-- Claim C5: every sequence of addDescriptors, addScaffolds, addData and
removeData calls (and createScaffoldGroups) leaves the row count of the
table unchanged: these operations only add or remove columns. -/
theorem mutationsPreserveRowCount (ds : DataSetTSV) (fs : FS) (ops : List Op) :
    ((runOps ds fs ops).1).data.nrows = ds.data.nrows := by
  induction ops generalizing ds fs with
  | nil => rfl
  | cons op rest ih => exact (ih _ _).trans (applyOp_nrows ds fs op)

/-! ## Save with an override path -/

/-- Claim C10 counterexample: saving with the empty-string override path
writes nothing at that path; Python truthiness sends the write to the
configured backing path instead. -/
theorem saveEmptyOverrideWritesBackingPath :
    fsGet? (c10Store.save [] (some "")) "" = none ∧
    fsGet? (c10Store.save [] (some "")) "a.tsv" = some (writeTable c10Store.data) := by
  decide

/-- Claim C10 (amended): saving to a nonempty override path writes the
table there, changes no other path, and does not change the configured
backing path: every subsequent mutating operation still persists to the
path given at construction. -/
theorem saveOverrideKeepsBackingPath (ds : DataSetTSV) (fs : FS) (p : String)
    (hp : p ≠ "") :
    (fsGet? (ds.save fs (some p)) p = some (writeTable ds.data)) ∧
    (∀ q, q ≠ p → fsGet? (ds.save fs (some p)) q = fsGet? fs q) ∧
    (∀ (n : String) (vs : List Val), vs.length = ds.data.nrows →
      fsGet? ((ds.addData (ds.save fs (some p)) n vs).2.1) ds.path =
        some (writeTable ((ds.addData (ds.save fs (some p)) n vs).1.data))) ∧
    (∀ (n : String), ds.data.hasCol n = true →
      fsGet? ((ds.removeData (ds.save fs (some p)) n).2.1) ds.path =
        some (writeTable ((ds.removeData (ds.save fs (some p)) n).1.data))) ∧
    (∀ (m : Nat),
      fsGet? ((ds.createScaffoldGroups (ds.save fs (some p)) m).2) ds.path =
        some (writeTable ((ds.createScaffoldGroups (ds.save fs (some p)) m).1.data))) ∧
    (∀ (f : AnnFn) (mols col : List Val),
      ds.data.getCol? ds.molCol = some mols → mapE f.fn mols = .ok col →
      fsGet? ((ds.addDescriptors (ds.save fs (some p)) [f]).2.1) ds.path =
        some (writeTable ((ds.addDescriptors (ds.save fs (some p)) [f]).1.data))) ∧
    (∀ (f : AnnFn) (mols col mcol : List Val),
      ds.data.getCol? ds.molCol = some mols → mapE f.fn mols = .ok col →
      mapO cellToMol col = some mcol →
      fsGet? ((ds.addScaffolds (ds.save fs (some p)) [f]).2.1) ds.path =
        some (writeTable ((ds.addScaffolds (ds.save fs (some p)) [f]).1.data))) := by
  have hsave : ds.save fs (some p) = fsWrite fs p (writeTable ds.data) := by
    simp [DataSetTSV.save, hp]
  refine ⟨?_, ?_, ?_, ?_, ?_, ?_, ?_⟩
  · rw [hsave]
    exact fsGet_fsWrite_self fs p (writeTable ds.data)
  · intro q hq
    rw [hsave]
    exact fsGet_fsWrite_other fs p q (writeTable ds.data) hq
  · intro n vs hlen
    simp only [DataSetTSV.addData, if_pos hlen]
    exact fsGet_fsWrite_self _ _ _
  · intro n hn
    simp only [DataSetTSV.removeData, Table.dropCol?, hn, if_pos]
    exact fsGet_fsWrite_self _ _ _
  · intro m
    exact fsGet_fsWrite_self _ _ _
  · intro f mols col hg he
    have hres : ds.addDescriptors (ds.save fs (some p)) [f] =
        ({ ds with data := ds.data.setCol ("Descriptor_" ++ f.name) col },
         fsWrite (ds.save fs (some p)) ds.path
           (writeTable (ds.data.setCol ("Descriptor_" ++ f.name) col)), none) := by
      show addDescLoop ds (ds.save fs (some p)) [f] = _
      rw [addDescLoop_cons_ok ds (ds.save fs (some p)) f [] mols col hg he]
      rfl
    rw [hres]
    exact fsGet_fsWrite_self _ _ _
  · intro f mols col mcol hg he hm
    have hg2 : (ds.data.setCol ("Scaffold_" ++ f.name) col).getCol? ("Scaffold_" ++ f.name) =
        some col := by
      rw [getCol_setCol, if_pos rfl]
    have ha := AMC_ok_eq (ds.data.setCol ("Scaffold_" ++ f.name) col) ("Scaffold_" ++ f.name)
      ("Scaffold_" ++ f.name ++ "_" ++ ds.molCol) col mcol hg2 hm
    have hres : ds.addScaffolds (ds.save fs (some p)) [f] =
        ({ ds with data := ((ds.data.setCol ("Scaffold_" ++ f.name) col).setCol ("Scaffold_" ++ f.name ++ "_" ++ ds.molCol) mcol) },
         fsWrite (ds.save fs (some p)) ds.path
           (writeTable ((ds.data.setCol ("Scaffold_" ++ f.name) col).setCol ("Scaffold_" ++ f.name ++ "_" ++ ds.molCol) mcol)), none) := by
      show addScafLoop ds (ds.save fs (some p)) [f] = _
      rw [addScafLoop_cons_ok ds (ds.save fs (some p)) f [] mols col _ hg he ha]
      rfl
    rw [hres]
    exact fsGet_fsWrite_self _ _ _

/-- Witness for saveOverrideKeepsBackingPath at a concrete store and the
override path b.tsv. -/
theorem saveOverrideKeepsBackingPathApplied :
    fsGet? (c10Store.save [] (some "b.tsv")) "b.tsv" = some (writeTable c10Store.data) :=
  (saveOverrideKeepsBackingPath c10Store [] "b.tsv" (by decide)).1

/-! ## Per-function isolation in addDescriptors -/

theorem addDescLoop_fail_spec (pre : List AnnFn) :
    ∀ (ds : DataSetTSV) (fs : FS) (rest : List AnnFn) (bad : AnnFn) (mols : List Val)
      (e : String),
    ds.molCol = "RDMol" →
    ds.data.getCol? "RDMol" = some mols →
    (∀ d ∈ pre, isOkE (mapE d.fn mols) = true) →
    (pre.map AnnFn.name).Nodup →
    mapE bad.fn mols = .error e →
    ((addDescLoop ds fs (pre ++ bad :: rest)).2.2 = some (.annFailure e)) ∧
    ((addDescLoop ds fs (pre ++ bad :: rest)).1.path = ds.path) ∧
    (∀ n : String, (∀ d ∈ pre, n ≠ "Descriptor_" ++ d.name) →
      (addDescLoop ds fs (pre ++ bad :: rest)).1.data.getCol? n = ds.data.getCol? n) ∧
    (∀ d ∈ pre, ∃ col, mapE d.fn mols = .ok col ∧
      (addDescLoop ds fs (pre ++ bad :: rest)).1.data.getCol? ("Descriptor_" ++ d.name) =
        some col) ∧
    (pre = [] → addDescLoop ds fs (pre ++ bad :: rest) = (ds, fs, some (.annFailure e))) ∧
    (pre ≠ [] → fsGet? (addDescLoop ds fs (pre ++ bad :: rest)).2.1 ds.path =
      some (writeTable ((addDescLoop ds fs (pre ++ bad :: rest)).1.data))) := by
  induction pre with
  | nil =>
    intro ds fs rest bad mols e hmol hcol _ _ hbad
    have hg : ds.data.getCol? ds.molCol = some mols := by rw [hmol]; exact hcol
    have heq := addDescLoop_cons_err ds fs bad rest mols e hg hbad
    rw [List.nil_append]
    rw [heq]
    refine ⟨rfl, rfl, fun n _ => rfl, ?_, fun _ => rfl, fun hne => absurd rfl hne⟩
    intro d hd
    exact absurd hd (List.not_mem_nil d)
  | cons d pre' ih =>
    intro ds fs rest bad mols e hmol hcol hok hnd hbad
    have h1 : isOkE (mapE d.fn mols) = true := hok d (List.mem_cons_self d pre')
    cases he : mapE d.fn mols with
    | error e' =>
      rw [he] at h1
      simp [isOkE] at h1
    | ok col =>
      have hg : ds.data.getCol? ds.molCol = some mols := by rw [hmol]; exact hcol
      have hstep := addDescLoop_cons_ok ds fs d (pre' ++ bad :: rest) mols col hg he
      have hcons : (d :: pre') ++ bad :: rest = d :: (pre' ++ bad :: rest) := rfl
      rw [hcons, hstep]
      have hmol1 : ({ ds with data := ds.data.setCol ("Descriptor_" ++ d.name) col } :
          DataSetTSV).molCol = "RDMol" := hmol
      have hcol1 : ({ ds with data := ds.data.setCol ("Descriptor_" ++ d.name) col} :
          DataSetTSV).data.getCol? "RDMol" = some mols := by
        show (ds.data.setCol ("Descriptor_" ++ d.name) col).getCol? "RDMol" = some mols
        rw [getCol_setCol, if_neg (fun hh => descNeRDMol d.name hh.symm)]
        exact hcol
      have hok1 : ∀ d' ∈ pre', isOkE (mapE d'.fn mols) = true :=
        fun d' hd' => hok d' (List.mem_cons_of_mem d hd')
      have hnd1 : (pre'.map AnnFn.name).Nodup := (List.nodup_cons.mp hnd).2
      obtain ⟨ih1, ih2, ih3, ih4, ih5, ih6⟩ :=
        ih ({ ds with data := ds.data.setCol ("Descriptor_" ++ d.name) col})
          (DataSetTSV.save { ds with data := ds.data.setCol ("Descriptor_" ++ d.name) col } fs none)
          rest bad mols e hmol1 hcol1 hok1 hnd1 hbad
      refine ⟨ih1, ih2, ?_, ?_, ?_, ?_⟩
      · intro n hn
        rw [ih3 n (fun d' hd' => hn d' (List.mem_cons_of_mem d hd'))]
        show (ds.data.setCol ("Descriptor_" ++ d.name) col).getCol? n = ds.data.getCol? n
        rw [getCol_setCol, if_neg (hn d (List.mem_cons_self d pre'))]
      · intro d' hd'
        rcases List.mem_cons.mp hd' with hh | hh
        · subst hh
          refine ⟨col, he, ?_⟩
          have hnin : d'.name ∉ pre'.map AnnFn.name := (List.nodup_cons.mp hnd).1
          have hfr : ∀ d'' ∈ pre',
              ("Descriptor_" ++ d'.name) ≠ "Descriptor_" ++ d''.name := by
            intro d'' hd'' hh2
            have : d'.name = d''.name := strAppendCancel _ _ _ hh2
            exact hnin (this ▸ List.mem_map_of_mem AnnFn.name hd'')
          rw [ih3 _ hfr]
          show (ds.data.setCol ("Descriptor_" ++ d'.name) col).getCol? ("Descriptor_" ++ d'.name) = some col
          rw [getCol_setCol, if_pos rfl]
        · exact ih4 d' hh
      · intro hh
        exact absurd hh (List.cons_ne_nil d pre')
      · intro _
        by_cases hpre' : pre' = []
        · subst hpre'
          rw [ih5 rfl]
          exact fsGet_fsWrite_self _ _ _
        · exact ih6 hpre'

/-- The addDescriptors half of the per-function isolation property: a
raising function ends the call with the error, its own column absent, and
every earlier function's column present and persisted. -/
theorem descriptorFailureIsolation (ds : DataSetTSV) (fs : FS) (pre rest : List AnnFn)
    (bad : AnnFn) (mols : List Val) (e : String)
    (hmol : ds.molCol = "RDMol")
    (hcol : ds.data.getCol? "RDMol" = some mols)
    (hok : ∀ d ∈ pre, isOkE (mapE d.fn mols) = true)
    (hnd : (pre.map AnnFn.name).Nodup)
    (hbadname : bad.name ∉ pre.map AnnFn.name)
    (hbadcol : ds.data.hasCol ("Descriptor_" ++ bad.name) = false)
    (hbad : mapE bad.fn mols = .error e) :
    ((ds.addDescriptors fs (pre ++ bad :: rest)).2.2 = some (.annFailure e)) ∧
    (∀ d ∈ pre, ∃ col, mapE d.fn mols = .ok col ∧
      (ds.addDescriptors fs (pre ++ bad :: rest)).1.data.getCol? ("Descriptor_" ++ d.name) =
        some col) ∧
    ((ds.addDescriptors fs (pre ++ bad :: rest)).1.data.hasCol ("Descriptor_" ++ bad.name) =
      false) ∧
    (pre ≠ [] → fsGet? (ds.addDescriptors fs (pre ++ bad :: rest)).2.1 ds.path =
      some (writeTable ((ds.addDescriptors fs (pre ++ bad :: rest)).1.data))) := by
  obtain ⟨h1, _, h3, h4, _, h6⟩ :=
    addDescLoop_fail_spec pre ds fs rest bad mols e hmol hcol hok hnd hbad
  refine ⟨h1, h4, ?_, h6⟩
  have hfr : ∀ d ∈ pre, ("Descriptor_" ++ bad.name) ≠ "Descriptor_" ++ d.name := by
    intro d hd hh
    have : bad.name = d.name := strAppendCancel _ _ _ hh
    exact hbadname (this ▸ List.mem_map_of_mem AnnFn.name hd)
  show ((addDescLoop ds fs (pre ++ bad :: rest)).1.data.getCol? ("Descriptor_" ++ bad.name)).isSome = false
  rw [h3 _ hfr]
  exact hbadcol


/-! ## Round trip through the backing file -/

/-- Claim C4 counterexample: a store holding a scaffold parsed-molecule
counterpart column does not round trip; the molecule objects are written
as opaque reprs and read back as strings. -/
theorem roundTripFailsOnMolColumns :
    DataSetTSV.init (scafStore.save [] none) scafStore.path scafStore.smilesCol ≠
      .ok scafStore := by
  decide

theorem mapRound_cols (cs : List (String × List Val)) :
    (cs.map (fun c => (c.1, c.2.map serializeCell))).map (fun c => (c.1, c.2.map parseCell)) =
      cs.map (fun c => (c.1, c.2.map roundCell)) := by
  induction cs with
  | nil => rfl
  | cons c cs ih =>
    simp only [List.map_cons, ih]
    congr 1
    show (c.1, (c.2.map serializeCell).map parseCell) = (c.1, c.2.map roundCell)
    rw [List.map_map]
    rfl

theorem readWrite_cols (t : Table) :
    readFile (writeTable t) = ⟨t.nrows, t.cols.map (fun c => (c.1, c.2.map roundCell))⟩ := by
  show Table.mk t.nrows
      ((t.cols.map (fun c => (c.1, c.2.map serializeCell))).map (fun c => (c.1, c.2.map parseCell))) = _
  rw [mapRound_cols]

theorem setColsRestore : ∀ (cs : List (String × List Val)) (rd : List Val),
    (cs.map Prod.fst).Nodup →
    lookupCol cs "RDMol" = some rd →
    (∀ c ∈ cs, c.1 ≠ "RDMol" → c.2.map roundCell = c.2) →
    setCols (cs.map (fun c => (c.1, c.2.map roundCell))) "RDMol" rd = cs := by
  intro cs
  induction cs with
  | nil => intro rd _ hlk _; exact Option.noConfusion hlk
  | cons c cs ih =>
    intro rd hnd hall hvals
    obtain ⟨c1, c2⟩ := c
    have hnd2 : (c1 :: cs.map Prod.fst).Nodup := by simpa using hnd
    simp only [List.map_cons]
    by_cases h1 : c1 = "RDMol"
    · subst h1
      have hc2 : c2 = rd := by
        have h2 : some c2 = some rd := by simpa [lookupCol] using hall
        exact Option.some.inj h2
      have hnotin : "RDMol" ∉ cs.map Prod.fst := (List.nodup_cons.mp hnd2).1
      have htail : cs.map (fun c => (c.1, c.2.map roundCell)) = cs := by
        apply mapSelf
        intro x hx
        have hx1 : x.1 ≠ "RDMol" := fun hh => hnotin (hh ▸ List.mem_map_of_mem Prod.fst hx)
        have hxv := hvals x (List.mem_cons_of_mem _ hx) hx1
        obtain ⟨x1, x2⟩ := x
        show (x1, x2.map roundCell) = (x1, x2)
        rw [show x2.map roundCell = x2 from hxv]
      simp only [setCols]
      rw [if_pos trivial, htail, hc2]
    · have hhead : c2.map roundCell = c2 := hvals (c1, c2) (List.mem_cons_self _ _) h1
      have hlk2 : lookupCol cs "RDMol" = some rd := by
        simp only [lookupCol] at hall
        rw [if_neg h1] at hall
        exact hall
      have hnd3 : (cs.map Prod.fst).Nodup := (List.nodup_cons.mp hnd2).2
      have hvals2 : ∀ x ∈ cs, x.1 ≠ "RDMol" → x.2.map roundCell = x.2 :=
        fun x hx => hvals x (List.mem_cons_of_mem _ hx)
      simp only [setCols]
      rw [if_neg h1, ih rd hnd3 hlk2 hvals2, hhead]

/-- Claim C4 (amended): the round trip restores the store exactly when
every cell outside the cached parsed-molecule column survives text
serialisation (is an integer or a string that does not read back as a
number) and the cached parsed-molecule column is the parse of the
structure column; the parsed column is recomputed from the structure
strings on load. -/
theorem roundTripRestoresStore (ds : DataSetTSV) (fs : FS) (smiles rdmols : List Val)
    (hmol : ds.molCol = "RDMol")
    (hsm : ds.smilesCol ≠ "RDMol")
    (hnd : ds.data.colNames.Nodup)
    (hsmiles : ds.data.getCol? ds.smilesCol = some smiles)
    (hparse : mapO cellToMol smiles = some rdmols)
    (hrd : ds.data.getCol? "RDMol" = some rdmols)
    (hall : ∀ c ∈ ds.data.cols, c.1 ≠ "RDMol" → ∀ v ∈ c.2, roundCell v = v) :
    DataSetTSV.init (ds.save fs none) ds.path ds.smilesCol = .ok ds := by
  obtain ⟨sc, mc, pa, da⟩ := ds
  have hmc : mc = "RDMol" := hmol
  subst hmc
  have hfs : fsGet? (DataSetTSV.save ⟨sc, "RDMol", pa, da⟩ fs none) pa =
      some (writeTable da) := fsGet_fsWrite_self fs pa (writeTable da)
  have hsurv : smiles.map roundCell = smiles := by
    apply mapSelf
    exact hall (sc, smiles) (lookup_mem hsmiles) hsm
  have hTg : (readFile (writeTable da)).getCol? sc = some smiles := by
    rw [readWrite_cols]
    show lookupCol (da.cols.map (fun c => (c.1, c.2.map roundCell))) sc = some smiles
    rw [lookup_mapVals (List.map roundCell) da.cols sc]
    rw [show lookupCol da.cols sc = some smiles from hsmiles]
    rw [Option.map_some']
    rw [hsurv]
  have hrestore : (readFile (writeTable da)).setCol "RDMol" rdmols = da := by
    rw [readWrite_cols]
    show (⟨da.nrows, setCols (da.cols.map (fun c => (c.1, c.2.map roundCell))) "RDMol" rdmols⟩ : Table) = da
    have hvals : ∀ c ∈ da.cols, c.1 ≠ "RDMol" → c.2.map roundCell = c.2 :=
      fun c hc h1 => mapSelf roundCell c.2 (hall c hc h1)
    rw [setColsRestore da.cols rdmols hnd hrd hvals]
  have hAMC : AddMoleculeColumnToFrame
      ((fsGet? (DataSetTSV.save ⟨sc, "RDMol", pa, da⟩ fs none) pa).map readFile) sc "RDMol" =
      .ok da := by
    rw [hfs, Option.map_some']
    rw [AMC_ok_eq (readFile (writeTable da)) sc "RDMol" smiles rdmols hTg hparse]
    rw [hrestore]
  show (match AddMoleculeColumnToFrame
      ((fsGet? (DataSetTSV.save ⟨sc, "RDMol", pa, da⟩ fs none) pa).map readFile) sc "RDMol" with
    | .error e => (.error e : Except DSError DataSetTSV)
    | .ok t => .ok ⟨sc, "RDMol", pa, t⟩) = .ok ⟨sc, "RDMol", pa, da⟩
  rw [hAMC]

/-- Witness for roundTripRestoresStore at a concrete store with a
structure column, its cached parsed column and one descriptor column. -/
theorem roundTripRestoresStoreApplied :
    DataSetTSV.init (rtStore.save [] none) rtStore.path rtStore.smilesCol = .ok rtStore :=
  roundTripRestoresStore rtStore [] [Val.str "CC"] [Val.mol "CC"] rfl (by decide) (by decide)
    (by decide) (by decide) (by decide) (by decide)

/-! ## Per-function isolation in addScaffolds -/

theorem strExt {a b : String} (h : a.data = b.data) : a = b := by
  cases a with
  | mk da =>
  cases b with
  | mk db =>
  have hh : da = db := h
  rw [hh]

theorem strAppendCancelRight (p a b : String) (h : a ++ p = b ++ p) : a = b := by
  have hd := congrArg String.data h
  rw [strDataAppend, strDataAppend] at hd
  exact strExt (List.append_cancel_right hd)

theorem strAppendAssoc (a b c : String) : (a ++ b) ++ c = a ++ (b ++ c) := by
  apply strExt
  rw [strDataAppend, strDataAppend, strDataAppend, strDataAppend, List.append_assoc]

theorem scafMolInj (a b mc : String)
    (h : ("Scaffold_" ++ a ++ "_" ++ mc) = ("Scaffold_" ++ b ++ "_" ++ mc)) : a = b := by
  have h1 : ("Scaffold_" ++ a ++ "_") = ("Scaffold_" ++ b ++ "_") :=
    strAppendCancelRight mc _ _ h
  have h2 : ("Scaffold_" ++ a) = ("Scaffold_" ++ b) := strAppendCancelRight "_" _ _ h1
  exact strAppendCancel _ _ _ h2

theorem scafCrossEq (a b mc : String)
    (h : ("Scaffold_" ++ a) = ("Scaffold_" ++ b ++ "_" ++ mc)) : a = b ++ "_" ++ mc := by
  have hassoc : ("Scaffold_" ++ b ++ "_" ++ mc) = ("Scaffold_" ++ (b ++ "_" ++ mc)) := by
    rw [strAppendAssoc ("Scaffold_" ++ b) "_" mc, strAppendAssoc "Scaffold_" b ("_" ++ mc),
      ← strAppendAssoc b "_" mc]
  rw [hassoc] at h
  exact strAppendCancel _ _ _ h

theorem scafNeRDMol (x : String) : ("Scaffold_" ++ x) ≠ "RDMol" := by
  intro h
  have hd := congrArg String.data h
  rw [strDataAppend] at hd
  have hl := congrArg List.length hd
  rw [List.length_append] at hl
  have h9 : ("Scaffold_".data).length = 9 := rfl
  have h5 : ("RDMol".data).length = 5 := rfl
  rw [h9, h5] at hl
  omega

theorem scafMolColNeRDMol (x mc : String) : ("Scaffold_" ++ x ++ "_" ++ mc) ≠ "RDMol" := by
  intro h
  have hd := congrArg String.data h
  rw [strDataAppend, strDataAppend, strDataAppend] at hd
  have hl := congrArg List.length hd
  rw [List.length_append, List.length_append, List.length_append] at hl
  have h9 : ("Scaffold_".data).length = 9 := rfl
  have h5 : ("RDMol".data).length = 5 := rfl
  have h1 : ("_".data).length = 1 := rfl
  rw [h9, h5, h1] at hl
  omega

theorem scafNeScafMol (x mc : String) :
    ("Scaffold_" ++ x) ≠ ("Scaffold_" ++ x ++ "_" ++ mc) := by
  intro h
  have h2 : x = x ++ "_" ++ mc := scafCrossEq x x mc h
  have hd := congrArg String.data h2
  rw [strDataAppend, strDataAppend] at hd
  have hl := congrArg List.length hd
  rw [List.length_append, List.length_append] at hl
  have h1 : ("_".data).length = 1 := rfl
  rw [h1] at hl
  omega

theorem addScafLoop_fail_spec (pre : List AnnFn) :
    ∀ (ds : DataSetTSV) (fs : FS) (rest : List AnnFn) (bad : AnnFn) (mols : List Val)
      (e : String),
    ds.molCol = "RDMol" →
    ds.data.getCol? "RDMol" = some mols →
    (∀ d ∈ pre, scafOkE mols d = true) →
    (pre.map AnnFn.name).Nodup →
    (∀ d ∈ pre, ∀ d' ∈ pre, d.name ≠ d'.name ++ "_" ++ "RDMol") →
    mapE bad.fn mols = .error e →
    ((addScafLoop ds fs (pre ++ bad :: rest)).2.2 = some (.annFailure e)) ∧
    ((addScafLoop ds fs (pre ++ bad :: rest)).1.path = ds.path) ∧
    (∀ n : String,
      (∀ d ∈ pre, n ≠ "Scaffold_" ++ d.name ∧ n ≠ "Scaffold_" ++ d.name ++ "_" ++ "RDMol") →
      (addScafLoop ds fs (pre ++ bad :: rest)).1.data.getCol? n = ds.data.getCol? n) ∧
    (∀ d ∈ pre, ∃ col mcol, mapE d.fn mols = .ok col ∧ mapO cellToMol col = some mcol ∧
      (addScafLoop ds fs (pre ++ bad :: rest)).1.data.getCol? ("Scaffold_" ++ d.name) =
        some col ∧
      (addScafLoop ds fs (pre ++ bad :: rest)).1.data.getCol?
        ("Scaffold_" ++ d.name ++ "_" ++ "RDMol") = some mcol) ∧
    (pre = [] → addScafLoop ds fs (pre ++ bad :: rest) = (ds, fs, some (.annFailure e))) ∧
    (pre ≠ [] → fsGet? (addScafLoop ds fs (pre ++ bad :: rest)).2.1 ds.path =
      some (writeTable ((addScafLoop ds fs (pre ++ bad :: rest)).1.data))) := by
  induction pre with
  | nil =>
    intro ds fs rest bad mols e hmol hcol _ _ _ hbad
    have hg : ds.data.getCol? ds.molCol = some mols := by rw [hmol]; exact hcol
    have heq := addScafLoop_cons_err ds fs bad rest mols e hg hbad
    rw [List.nil_append, heq]
    refine ⟨rfl, rfl, fun n _ => rfl, ?_, fun _ => rfl, fun hne => absurd rfl hne⟩
    intro d hd
    exact absurd hd (List.not_mem_nil d)
  | cons d pre' ih =>
    intro ds fs rest bad mols e hmol hcol hok hnd hcross hbad
    have hok1 : scafOkE mols d = true := hok d (List.mem_cons_self d pre')
    unfold scafOkE at hok1
    cases he : mapE d.fn mols with
    | error e' =>
      rw [he] at hok1
      simp at hok1
    | ok col =>
      rw [he] at hok1
      have hok2 : (mapO cellToMol col).isSome = true := hok1
      rw [Option.isSome_iff_exists] at hok2
      obtain ⟨mcol, hmc⟩ := hok2
      have hg : ds.data.getCol? ds.molCol = some mols := by rw [hmol]; exact hcol
      have hg2 : (ds.data.setCol ("Scaffold_" ++ d.name) col).getCol?
          ("Scaffold_" ++ d.name) = some col := by
        rw [getCol_setCol, if_pos rfl]
      have ha := AMC_ok_eq (ds.data.setCol ("Scaffold_" ++ d.name) col)
        ("Scaffold_" ++ d.name) ("Scaffold_" ++ d.name ++ "_" ++ ds.molCol) col mcol hg2 hmc
      have hstep := addScafLoop_cons_ok ds fs d (pre' ++ bad :: rest) mols col
        ((ds.data.setCol ("Scaffold_" ++ d.name) col).setCol ("Scaffold_" ++ d.name ++ "_" ++ ds.molCol) mcol)
        hg he ha
      have hcons : (d :: pre') ++ bad :: rest = d :: (pre' ++ bad :: rest) := rfl
      rw [hcons, hstep, hmol]
      have hmol2 : ({ smilesCol := ds.smilesCol, molCol := "RDMol", path := ds.path, data := (ds.data.setCol ("Scaffold_" ++ d.name) col).setCol ("Scaffold_" ++ d.name ++ "_" ++ "RDMol") mcol } : DataSetTSV).molCol = "RDMol" := rfl
      have hcol2 : ({ smilesCol := ds.smilesCol, molCol := "RDMol", path := ds.path, data := (ds.data.setCol ("Scaffold_" ++ d.name) col).setCol ("Scaffold_" ++ d.name ++ "_" ++ "RDMol") mcol } : DataSetTSV).data.getCol? "RDMol" = some mols := by
        show ((ds.data.setCol ("Scaffold_" ++ d.name) col).setCol ("Scaffold_" ++ d.name ++ "_" ++ "RDMol") mcol).getCol? "RDMol" = some mols
        rw [getCol_setCol, if_neg (fun hh => scafMolColNeRDMol d.name "RDMol" hh.symm),
          getCol_setCol, if_neg (fun hh => scafNeRDMol d.name hh.symm)]
        exact hcol
      have hok3 : ∀ x ∈ pre', scafOkE mols x = true :=
        fun x hx => hok x (List.mem_cons_of_mem d hx)
      have hnd3 : (pre'.map AnnFn.name).Nodup := (List.nodup_cons.mp hnd).2
      have hcross3 : ∀ x ∈ pre', ∀ y ∈ pre', x.name ≠ y.name ++ "_" ++ "RDMol" :=
        fun x hx y hy => hcross x (List.mem_cons_of_mem d hx) y (List.mem_cons_of_mem d hy)
      obtain ⟨ih1, ih2, ih3, ih4, ih5, ih6⟩ :=
        ih ({ smilesCol := ds.smilesCol, molCol := "RDMol", path := ds.path, data := (ds.data.setCol ("Scaffold_" ++ d.name) col).setCol ("Scaffold_" ++ d.name ++ "_" ++ "RDMol") mcol })
          (DataSetTSV.save { smilesCol := ds.smilesCol, molCol := "RDMol", path := ds.path, data := (ds.data.setCol ("Scaffold_" ++ d.name) col).setCol ("Scaffold_" ++ d.name ++ "_" ++ "RDMol") mcol } fs none)
          rest bad mols e hmol2 hcol2 hok3 hnd3 hcross3 hbad
      have hname_nin : d.name ∉ pre'.map AnnFn.name := (List.nodup_cons.mp hnd).1
      have hsideS : ∀ x ∈ pre', ("Scaffold_" ++ d.name) ≠ "Scaffold_" ++ x.name ∧
          ("Scaffold_" ++ d.name) ≠ "Scaffold_" ++ x.name ++ "_" ++ "RDMol" := by
        intro x hx
        constructor
        · intro hh
          have hxx : d.name = x.name := strAppendCancel _ _ _ hh
          exact hname_nin (hxx ▸ List.mem_map_of_mem AnnFn.name hx)
        · intro hh
          have hxx : d.name = x.name ++ "_" ++ "RDMol" := scafCrossEq _ _ _ hh
          exact hcross d (List.mem_cons_self d pre') x (List.mem_cons_of_mem d hx) hxx
      have hsideM : ∀ x ∈ pre',
          ("Scaffold_" ++ d.name ++ "_" ++ "RDMol") ≠ "Scaffold_" ++ x.name ∧
          ("Scaffold_" ++ d.name ++ "_" ++ "RDMol") ≠ "Scaffold_" ++ x.name ++ "_" ++ "RDMol" := by
        intro x hx
        constructor
        · intro hh
          have hxx : x.name = d.name ++ "_" ++ "RDMol" := scafCrossEq _ _ _ hh.symm
          exact hcross x (List.mem_cons_of_mem d hx) d (List.mem_cons_self d pre') hxx
        · intro hh
          have hxx : d.name = x.name := scafMolInj _ _ _ hh
          exact hname_nin (hxx ▸ List.mem_map_of_mem AnnFn.name hx)
      refine ⟨ih1, ih2, ?_, ?_, ?_, ?_⟩
      · intro n hn
        obtain ⟨hnS, hnM⟩ := hn d (List.mem_cons_self d pre')
        rw [ih3 n (fun x hx => hn x (List.mem_cons_of_mem d hx))]
        show ((ds.data.setCol ("Scaffold_" ++ d.name) col).setCol ("Scaffold_" ++ d.name ++ "_" ++ "RDMol") mcol).getCol? n = ds.data.getCol? n
        rw [getCol_setCol, if_neg hnM, getCol_setCol, if_neg hnS]
      · intro x hx
        rcases List.mem_cons.mp hx with hh | hh
        · subst hh
          refine ⟨col, mcol, he, hmc, ?_, ?_⟩
          · rw [ih3 ("Scaffold_" ++ x.name) hsideS]
            show ((ds.data.setCol ("Scaffold_" ++ x.name) col).setCol ("Scaffold_" ++ x.name ++ "_" ++ "RDMol") mcol).getCol? ("Scaffold_" ++ x.name) = some col
            rw [getCol_setCol, if_neg (scafNeScafMol x.name "RDMol"), getCol_setCol, if_pos rfl]
          · rw [ih3 ("Scaffold_" ++ x.name ++ "_" ++ "RDMol") hsideM]
            show ((ds.data.setCol ("Scaffold_" ++ x.name) col).setCol ("Scaffold_" ++ x.name ++ "_" ++ "RDMol") mcol).getCol? ("Scaffold_" ++ x.name ++ "_" ++ "RDMol") = some mcol
            rw [getCol_setCol, if_pos rfl]
        · exact ih4 x hh
      · intro hh
        exact absurd hh (List.cons_ne_nil d pre')
      · intro _
        by_cases hpre' : pre' = []
        · subst hpre'
          rw [ih5 rfl]
          exact fsGet_fsWrite_self _ _ _
        · exact ih6 hpre'

/-- Claim C7: if an annotation function raises during addDescriptors or
addScaffolds applied to a list of functions, the error propagates
uncaught and only that function's column addition is aborted; the
columns added for every function completed earlier in the same call
remain in the table and are already persisted to the backing file,
because a persist happens after each function. -/
theorem annotationFailureIsolation :
    (∀ (ds : DataSetTSV) (fs : FS) (pre rest : List AnnFn) (bad : AnnFn) (mols : List Val)
      (e : String),
      ds.molCol = "RDMol" →
      ds.data.getCol? "RDMol" = some mols →
      (∀ d ∈ pre, isOkE (mapE d.fn mols) = true) →
      (pre.map AnnFn.name).Nodup →
      bad.name ∉ pre.map AnnFn.name →
      ds.data.hasCol ("Descriptor_" ++ bad.name) = false →
      mapE bad.fn mols = .error e →
      ((ds.addDescriptors fs (pre ++ bad :: rest)).2.2 = some (.annFailure e)) ∧
      (∀ d ∈ pre, ∃ col, mapE d.fn mols = .ok col ∧
        (ds.addDescriptors fs (pre ++ bad :: rest)).1.data.getCol?
          ("Descriptor_" ++ d.name) = some col) ∧
      ((ds.addDescriptors fs (pre ++ bad :: rest)).1.data.hasCol
        ("Descriptor_" ++ bad.name) = false) ∧
      (pre ≠ [] → fsGet? (ds.addDescriptors fs (pre ++ bad :: rest)).2.1 ds.path =
        some (writeTable ((ds.addDescriptors fs (pre ++ bad :: rest)).1.data)))) ∧
    (∀ (ds : DataSetTSV) (fs : FS) (pre rest : List AnnFn) (bad : AnnFn) (mols : List Val)
      (e : String),
      ds.molCol = "RDMol" →
      ds.data.getCol? "RDMol" = some mols →
      (∀ d ∈ pre, scafOkE mols d = true) →
      (pre.map AnnFn.name).Nodup →
      (∀ d ∈ pre, ∀ d' ∈ pre, d.name ≠ d'.name ++ "_" ++ "RDMol") →
      mapE bad.fn mols = .error e →
      ((ds.addScaffolds fs (pre ++ bad :: rest)).2.2 = some (.annFailure e)) ∧
      (∀ d ∈ pre, ∃ col mcol, mapE d.fn mols = .ok col ∧ mapO cellToMol col = some mcol ∧
        (ds.addScaffolds fs (pre ++ bad :: rest)).1.data.getCol?
          ("Scaffold_" ++ d.name) = some col ∧
        (ds.addScaffolds fs (pre ++ bad :: rest)).1.data.getCol?
          ("Scaffold_" ++ d.name ++ "_" ++ "RDMol") = some mcol) ∧
      (pre ≠ [] → fsGet? (ds.addScaffolds fs (pre ++ bad :: rest)).2.1 ds.path =
        some (writeTable ((ds.addScaffolds fs (pre ++ bad :: rest)).1.data)))) := by
  constructor
  · intro ds fs pre rest bad mols e hmol hcol hok hnd hbadname hbadcol hbad
    exact descriptorFailureIsolation ds fs pre rest bad mols e hmol hcol hok hnd
      hbadname hbadcol hbad
  · intro ds fs pre rest bad mols e hmol hcol hok hnd hcross hbad
    obtain ⟨h1, _, _, h4, _, h6⟩ :=
      addScafLoop_fail_spec pre ds fs rest bad mols e hmol hcol hok hnd hcross hbad
    exact ⟨h1, h4, h6⟩

/-- Witness for annotationFailureIsolation: for each operation, one
succeeding function followed by one that raises. -/
theorem annotationFailureIsolationApplied :
    (rtStore.addDescriptors [] ([mwFn] ++ badFn :: [])).2.2 = some (.annFailure "boom") ∧
    (rtStore.addScaffolds [] ([scFn] ++ badFn :: [])).2.2 = some (.annFailure "boom") :=
  ⟨(annotationFailureIsolation.1 rtStore [] [mwFn] [] badFn [Val.mol "CC"] "boom" rfl
      (by decide) (by decide) (by decide) (by decide) (by decide) rfl).1,
   (annotationFailureIsolation.2 rtStore [] [scFn] [] badFn [Val.mol "CC"] "boom" rfl
      (by decide) (by decide) (by decide) (by decide) rfl).1⟩
